import Mathlib

/-!
# ToreroServe: bounded buffer and per-connection request handling

A shallow embedding of `BoundedBuffer.cpp` and of the request handling in
`torero-serve.cpp`, followed by the properties proved about them.

Conventions of the embedding.

* A C++ `int` is an `Int`.  In every state reachable from the constructor with
  a capacity between 1 and `INT_MAX` the counters stay within
  `0 .. capacity`, so no increment overflows.
* A `std::string` is a `List Char`, one `Char` per byte.
* The mutex of the buffer serialises the bodies of `getItem` and `putItem`;
  a run of the buffer is the sequence of those bodies in the order in which
  they take the lock.
* The handler is described by the actions it performs on the client socket,
  in order: the calls of `sendData` with their bytes, and `close`, and by the
  way it stops: it returns, a `std::filesystem::filesystem_error` leaves it
  (nothing catches it), or it loops for ever.  No send fails, and what is
  written to `std::cout` is left out.
* The answers of the filesystem are parameters (`FileSystem`); a call of a
  throwing overload of `std::filesystem` either answers or throws.
-/

namespace ToreroServe

/-! ## BoundedBuffer (BoundedBuffer.hpp, BoundedBuffer.cpp) -/

/-- Fields of `class BoundedBuffer`; `buffer` is the `std::queue<int>`, front first. -/
structure BoundedBuffer where
  capacity : Int
  count : Int
  head : Int
  tail : Int
  buffer : List Int
  deriving DecidableEq, Repr

/-- Result of one scheduling of a member function that holds the lock:
`returned a` when the body ran to its `return`, `waiting` when the thread found
its wait condition true and is parked in `wait` (it has written no field),
`undefined` when the body reached `front()` of an empty `std::queue`. -/
inductive Status (α : Type) where
  | returned (a : α)
  | waiting
  | undefined
  deriving DecidableEq, Repr

/-- Constructor `BoundedBuffer::BoundedBuffer(int max_size)`. -/
def BoundedBuffer.new (max_size : Int) : BoundedBuffer :=
  { capacity := max_size, count := 0, head := 0, tail := 0, buffer := [] }

/-- Member `BoundedBuffer::getItem`: the state it leaves and how it ended. -/
def BoundedBuffer.getItem (b : BoundedBuffer) : BoundedBuffer × Status Int :=
  if b.count = 0 then (b, Status.waiting)
  else
    let b1 := { b with count := b.count - 1 }
    match b1.buffer with
    | [] => (b1, Status.undefined)
    | item :: rest =>
      let b2 := { b1 with buffer := rest }
      let b3 := { b2 with tail := b2.tail + 1 }
      let b4 := if b3.tail = b3.capacity then { b3 with tail := 0 } else b3
      (b4, Status.returned item)

/-- Member `BoundedBuffer::putItem`: the state it leaves and how it ended. -/
def BoundedBuffer.putItem (b : BoundedBuffer) (new_item : Int) : BoundedBuffer × Status Unit :=
  if b.count = b.capacity then (b, Status.waiting)
  else
    let b1 := { b with count := b.count + 1 }
    let b2 := { b1 with buffer := b1.buffer ++ [new_item] }
    let b3 := { b2 with head := b2.head + 1 }
    let b4 := if b3.head = b3.capacity then { b3 with head := 0 } else b3
    (b4, Status.returned ())

/-- A call made on the shared buffer. -/
inductive Op where
  | putItem (new_item : Int)
  | getItem
  deriving DecidableEq, Repr

/-- One completed call: the next state and the value a `getItem` returned.
`none` when the call does not complete from this state. -/
def BoundedBuffer.step (b : BoundedBuffer) : Op → Option (BoundedBuffer × Option Int)
  | Op.putItem x =>
    match b.putItem x with
    | (b', Status.returned _) => some (b', none)
    | _ => none
  | Op.getItem =>
    match b.getItem with
    | (b', Status.returned item) => some (b', some item)
    | _ => none

/-- A sequence of completed calls, in the order in which they held the lock:
the final state and the values returned by the `getItem` calls, in order.
`none` when some call of the sequence cannot complete where it stands. -/
def BoundedBuffer.run (b : BoundedBuffer) : List Op → Option (BoundedBuffer × List Int)
  | [] => some (b, [])
  | op :: ops =>
    match b.step op with
    | none => none
    | some (b', r) =>
      match BoundedBuffer.run b' ops with
      | none => none
      | some (b'', rs) => some (b'', r.toList ++ rs)

/-- The handles passed to `putItem`, in call order. -/
def putArgs : List Op → List Int
  | [] => []
  | Op.putItem x :: ops => x :: putArgs ops
  | Op.getItem :: ops => putArgs ops

/-- The queue invariant: `0 ≤ count ≤ capacity` and `count` is the number of
handles held. -/
def BoundedBuffer.Inv (b : BoundedBuffer) : Prop :=
  0 ≤ b.count ∧ b.count ≤ b.capacity ∧ b.count = b.buffer.length

instance (b : BoundedBuffer) : Decidable b.Inv := by
  unfold BoundedBuffer.Inv; infer_instance

/-! ## Regular expressions (`std::regex`, ECMAScript grammar, "C" locale)

The two patterns of the source use literals, the classes `\s`, `\w`, `\d`, a
bracket class, concatenation and one greedy `*`.  They are written below as
terms of `Regex`, and `regex_search` returns sub-match 0: the match that starts
leftmost, and at that start the longest one (which is what the greedy `*`
yields for these patterns, where nothing after a `*` can be matched by the
class under the `*`). -/

/-- Class `\d`: the decimal digits. -/
def isDigit (c : Char) : Bool := 48 ≤ c.toNat && c.toNat ≤ 57

/-- Class `\w`: letters, digits and the underscore. -/
def isWord (c : Char) : Bool :=
  (48 ≤ c.toNat && c.toNat ≤ 57) || (65 ≤ c.toNat && c.toNat ≤ 90) ||
    (97 ≤ c.toNat && c.toNat ≤ 122) || c.toNat == 95

/-- Class `\s`: space, `\t`, `\n`, `\v`, `\f`, `\r`. -/
def isSpace (c : Char) : Bool := c.toNat == 32 || (9 ≤ c.toNat && c.toNat ≤ 13)

/-- Bracket class `[\w\-\./]`. -/
def isPathChar (c : Char) : Bool := isWord c || c == '-' || c == '.' || c == '/'

/-- Regular expressions over bytes; `nothing` and `alt` arise as derivatives. -/
inductive Regex where
  | nothing
  | eps
  | cls (p : Char → Bool)
  | seq (a b : Regex)
  | alt (a b : Regex)
  | star (a : Regex)

/-- Whether the expression matches the empty string. -/
def Regex.nullable : Regex → Bool
  | Regex.nothing => false
  | Regex.eps => true
  | Regex.cls _ => false
  | Regex.seq a b => a.nullable && b.nullable
  | Regex.alt a b => a.nullable || b.nullable
  | Regex.star _ => true

/-- Brzozowski derivative: what remains to be matched after reading `c`. -/
def Regex.deriv : Regex → Char → Regex
  | Regex.nothing, _ => Regex.nothing
  | Regex.eps, _ => Regex.nothing
  | Regex.cls p, c => if p c then Regex.eps else Regex.nothing
  | Regex.seq a b, c =>
    if a.nullable then Regex.alt (Regex.seq (a.deriv c) b) (b.deriv c)
    else Regex.seq (a.deriv c) b
  | Regex.alt a b, c => Regex.alt (a.deriv c) (b.deriv c)
  | Regex.star a, c => Regex.seq (a.deriv c) (Regex.star a)

/-- The longest prefix of the input matched by the expression, if any. -/
def Regex.longestMatch : Regex → List Char → Option (List Char)
  | r, [] => if r.nullable then some [] else none
  | r, c :: cs =>
    match Regex.longestMatch (r.deriv c) cs with
    | some m => some (c :: m)
    | none => if r.nullable then some [] else none

/-- Function `std::regex_search(s, match, r)`: `none` when it returns false,
otherwise `match[0]`. -/
def regex_search (r : Regex) : List Char → Option (List Char)
  | [] => r.longestMatch []
  | c :: cs =>
    match r.longestMatch (c :: cs) with
    | some m => some m
    | none => regex_search r cs

/-- The strings an expression denotes. -/
inductive Regex.Matches : Regex → List Char → Prop
  | eps : Regex.Matches Regex.eps []
  | cls (p : Char → Bool) (c : Char) : p c = true → Regex.Matches (Regex.cls p) [c]
  | seq (a b : Regex) (s t : List Char) :
      Regex.Matches a s → Regex.Matches b t → Regex.Matches (Regex.seq a b) (s ++ t)
  | altL (a b : Regex) (s : List Char) : Regex.Matches a s → Regex.Matches (Regex.alt a b) s
  | altR (a b : Regex) (s : List Char) : Regex.Matches b s → Regex.Matches (Regex.alt a b) s
  | starNil (a : Regex) : Regex.Matches (Regex.star a) []
  | starCons (a : Regex) (s t : List Char) :
      Regex.Matches a s → Regex.Matches (Regex.star a) t → Regex.Matches (Regex.star a) (s ++ t)

/-- A literal run of characters in a pattern. -/
def Regex.lit : List Char → Regex
  | [] => Regex.eps
  | c :: cs => Regex.seq (Regex.cls (fun d => d == c)) (Regex.lit cs)

/-- Pattern `"(GET\\s[\\w\\-\\./]*\\sHTTP/\\d\\.\\d)"` of `validGET`. -/
def http_request_regex : Regex :=
  Regex.seq (Regex.lit "GET".toList)
    (Regex.seq (Regex.cls isSpace)
      (Regex.seq (Regex.star (Regex.cls isPathChar))
        (Regex.seq (Regex.cls isSpace)
          (Regex.seq (Regex.lit "HTTP/".toList)
            (Regex.seq (Regex.cls isDigit)
              (Regex.seq (Regex.lit ".".toList) (Regex.cls isDigit)))))))

/-- Pattern `"(\\.\\w*)"` of `sendHeader`. -/
def rgx : Regex :=
  Regex.seq (Regex.lit ".".toList) (Regex.star (Regex.cls isWord))

/-- Function `validGET`. -/
def validGET (request : List Char) : Bool :=
  match regex_search http_request_regex request with
  | some _ => true
  | none => false

/-! ## `std::istringstream` and `std::getline` -/

/-- An input string stream: the characters not yet read, and `good()`. -/
structure IStringStream where
  rest : List Char
  good : Bool
  deriving DecidableEq, Repr

/-- Call `std::getline(f, str, delim)`: when the stream is not good the string
is left as it was; otherwise the string is replaced by the characters up to
the delimiter, which is consumed, or up to the end of the input, which clears
`good()`. Returns the stream and the string. -/
def getline (f : IStringStream) (str : List Char) (delim : Char) :
    IStringStream × List Char :=
  if f.good then
    match f.rest.span (fun c => c != delim) with
    | (tok, []) => ({ rest := [], good := false }, tok)
    | (tok, _ :: rest') => ({ rest := rest', good := true }, tok)
  else (f, str)

/-- Lines 171-176 of `handleClient`: the string `root` after
`root.append(file_name)`. -/
def target (root request_string : List Char) : List Char :=
  let f : IStringStream := { rest := request_string, good := true }
  let r1 := getline f [] ' '
  let r2 := getline r1.1 r1.2 ' '
  root ++ r2.2

/-! ## The filesystem as seen by the server

The answers of the operating system are parameters of the model; they do not
change while one request is handled. -/

/-- The filesystem calls of the source.

* `ifstream name` is `none` when `std::ifstream f(name)` is not `good()`, and
  otherwise the bytes the stream yields up to its end.
* `is_directory p`, `is_regular_file p` and `file_size p` are the throwing
  overloads `fs::is_directory(p)`, `fs::is_regular_file(p)` and
  `fs::file_size(p)`: `none` when the call throws `filesystem_error` (a name
  that is too long, a search permission that is missing, a size asked of
  something that is not a regular file), otherwise the answer.
* `directory_iterator dir` is `none` when constructing
  `fs::directory_iterator(dir)` throws; otherwise the file names of the entries
  in enumeration order, and whether the enumeration reaches its end (`true`) or
  the increment after the last of these names throws (`false`). -/
structure FileSystem where
  ifstream : List Char → Option (List Char)
  is_directory : List Char → Option Bool
  is_regular_file : List Char → Option Bool
  directory_iterator : List Char → Option (List (List Char) × Bool)
  file_size : List Char → Option Nat

/-- Function `fileExists`. -/
def fileExists (fs : FileSystem) (file_name : List Char) : Bool :=
  (fs.ifstream file_name).isSome

/-- Function `isDirectory`: `none` when `fs::is_directory` throws. -/
def isDirectory (fs : FileSystem) (file_name : List Char) : Option Bool :=
  fs.is_directory file_name

/-- Value of `entry.path()` for the entry `name` met while iterating over `dir`:
`dir / name`. -/
def entryPath (dir name : List Char) : List Char :=
  if dir = [] ∨ dir.getLast? = some '/' then dir ++ name else dir ++ '/' :: name

/-! ## What a handler does to its socket -/

/-- One action on the client socket: a call of `sendData` with the given bytes
(which, absent a transport fault, transmits all of them), or `close`. -/
inductive Event where
  | send (data : List Char)
  | close
  deriving DecidableEq, Repr

/-- Function `sendData`, absent a transport fault. -/
def sendData (data : List Char) : List Event := [Event.send data]

/-- The bytes sent over the socket by a sequence of actions. -/
def sentBytes : List Event → List Char
  | [] => []
  | Event.send data :: es => data ++ sentBytes es
  | Event.close :: es => sentBytes es

/-- What a function of the handler did to the socket, and how it stopped:
it returned; a `filesystem_error` left it, which nothing in the program
catches; or it entered a loop that never ends, in which it sends no byte
(`trace` holds the actions before that loop). -/
inductive Run where
  | returned (trace : List Event)
  | threw (trace : List Event)
  | hangs (trace : List Event)
  deriving DecidableEq, Repr

/-- The actions of a run. -/
def Run.trace : Run → List Event
  | Run.returned t => t
  | Run.threw t => t
  | Run.hangs t => t

/-- The run of a function body that first performs the actions `t` and then
does what `r` does. -/
def Run.after (t : List Event) : Run → Run
  | Run.returned u => Run.returned (t ++ u)
  | Run.threw u => Run.threw (t ++ u)
  | Run.hangs u => Run.hangs (t ++ u)

/-- Two statements in sequence: the second runs only when the first returns. -/
def Run.andThen (r next : Run) : Run :=
  match r with
  | Run.returned t => Run.after t next
  | Run.threw t => Run.threw t
  | Run.hangs t => Run.hangs t

/-- Call `std::to_string(n)`, and `<<` of a `size_t`: decimal digits. -/
def to_string (n : Nat) : List Char := Nat.toDigits 10 n

/-- Function `sendBad`. -/
def sendBad : List Event := sendData "HTTP/1.0 400 BAD REQUEST\r\n".toList

/-- Function `sendNotFound`. -/
def sendNotFound : List Event := sendData "HTTP/1.0 404 NOT FOUND\r\n".toList

/-- Function `sendOK`. -/
def sendOK : List Event := sendData "HTTP/1.0 200 OK\r\n".toList

/-- The `if`/`else if` chain of `sendHeader` on `request_match[0]`. -/
def fileType (m : List Char) : List Char :=
  if m = ".html".toList then "text/html".toList
  else if m = ".css".toList then "text/css".toList
  else if m = ".jpg".toList then "image/jpeg".toList
  else if m = ".gif".toList then "image/gif".toList
  else if m = ".png".toList then "image/png".toList
  else if m = ".pdf".toList then "application/pdf".toList
  else "text/plain".toList

/-- Function `sendHeader`. When the pattern matches, `fs::file_size` is called
while the header is built, before anything is sent. -/
def sendHeader (fs : FileSystem) (file_name : List Char) : Run :=
  match regex_search rgx file_name with
  | some m =>
    match fs.file_size file_name with
    | none => Run.threw []
    | some size =>
      Run.returned (sendData ("Content-Type: ".toList ++ fileType m ++ "\r\n".toList
        ++ "Content-Length: ".toList ++ to_string size ++ "\r\n".toList
        ++ "\r\n".toList))
  | none => Run.returned []

/-- The page built in `sendError` (and in the first branch of `sendHTML`). -/
def error_pg : List Char :=
  "<html>\r\n".toList ++ "<head>\r\n".toList
    ++ "<title> Page not found! </title>\r\n".toList
    ++ "</head>\r\n".toList
    ++ "<body> 404 Page Not Found! </body>\r\n".toList
    ++ "</html>\r\n".toList

/-- Function `sendError`. -/
def sendError : List Event :=
  sendData ("Content-Type: ".toList ++ "text/html".toList ++ "\r\n".toList
    ++ "Content-Length: ".toList ++ to_string error_pg.length ++ "\r\n".toList
    ++ "\r\n".toList ++ error_pg ++ "\r\n".toList)

/-- The `while (!file.eof())` loop of `sendFile` on an open stream whose unread
bytes are `rest`: a read of 4096 bytes that is fully served leaves `eof()`
false; a shorter read (possibly of no byte) sets it. -/
def sendFileLoop (rest : List Char) : List Event :=
  if 4096 ≤ rest.length then
    sendData (rest.take 4096) ++ sendFileLoop (rest.drop 4096)
  else sendData rest
termination_by rest.length
decreasing_by simp only [List.length_drop]; omega

/-- Function `sendFile`. When the stream did not open, every `read` fails
without setting `eof()`: the loop does not end, and each of its turns calls
`sendData` with no byte. -/
def sendFile (fs : FileSystem) (file_name : List Char) : Run :=
  match fs.ifstream file_name with
  | none => Run.hangs []
  | some bytes => Run.returned (sendFileLoop bytes ++ sendData "\r\n".toList)

/-- The `for` loop of `sendHTML` over the entries still to come, `ss` being the
listing built so far, and the code after the loop; `completes` tells whether
the enumeration reaches its end after these entries. -/
def sendHTMLLoop (fs : FileSystem) (file_name : List Char) (completes : Bool) :
    List (List Char) → List Char → Run
  | [], ss =>
    if completes then
      let html_pg := ss ++ "</ul>\r\n".toList ++ "</body>\r\n".toList ++ "</html>\r\n".toList
      Run.returned (sendData ("Content-Type: ".toList ++ "text/html".toList ++ "\r\n".toList
        ++ "Content-Length: ".toList ++ to_string html_pg.length ++ "\r\n".toList
        ++ "\r\n".toList ++ html_pg ++ "\r\n".toList))
    else Run.threw []
  | name :: entries, ss =>
    if name = "index.html".toList then
      (sendHeader fs (entryPath file_name name)).andThen
        (sendFile fs (entryPath file_name name))
    else
      match fs.is_regular_file (file_name ++ name) with
      | none => Run.threw []
      | some true =>
        sendHTMLLoop fs file_name completes entries
          (ss ++ "\t<li><a href=\"".toList ++ name ++ "\">".toList ++ name
            ++ "</a></li>\r\n".toList)
      | some false =>
        match fs.is_directory (file_name ++ name) with
        | none => Run.threw []
        | some true =>
          sendHTMLLoop fs file_name completes entries
            (ss ++ "\t<li><a href=\"".toList ++ name ++ "/\">".toList ++ name
              ++ "/</a></li>\r\n".toList)
        | some false => sendHTMLLoop fs file_name completes entries ss

/-- Function `sendHTML`. In `!isDirectory(file_name) && fileExists(file_name)`
the call of `fileExists` is made only when `isDirectory` answered false. -/
def sendHTML (fs : FileSystem) (file_name : List Char) : Run :=
  match isDirectory fs file_name with
  | none => Run.threw []
  | some is_dir =>
    if !is_dir && fileExists fs file_name then
      Run.returned (sendData ("Content-Type: ".toList ++ "text/html".toList ++ "\r\n".toList
        ++ "Content-Length: ".toList ++ to_string error_pg.length ++ "\r\n".toList
        ++ "\r\n".toList ++ error_pg ++ "\r\n".toList))
    else
      match fs.directory_iterator file_name with
      | none => Run.threw []
      | some (entries, completes) =>
        sendHTMLLoop fs file_name completes entries
          ("<html>\r\n".toList ++ "<head>".toList ++ "<title></title>".toList
            ++ "</head>\r\n".toList ++ "<body>\r\n".toList ++ "<ul>\r\n".toList)

/-- Whether the status queries that the loop of `sendHTML` makes on the entry
`name` answer, so that the loop goes on to the next entry: `is_regular_file`,
and `is_directory` when that answered false. -/
def entryAnswers (fs : FileSystem) (file_name name : List Char) : Bool :=
  match fs.is_regular_file (file_name ++ name) with
  | none => false
  | some true => true
  | some false => (fs.is_directory (file_name ++ name)).isSome

/-- The condition `!fileExists(root) && !isDirectory(root)` of `handleClient`:
`isDirectory` is called only when `fileExists` answered false; `none` when
that call throws. -/
def targetMissing (fs : FileSystem) (root : List Char) : Option Bool :=
  if fileExists fs root then some false
  else
    match isDirectory fs root with
    | none => none
    | some is_dir => some (!is_dir)

/-- Function `handleClient` after `receiveData` has filled `request_string`:
its actions on the client socket and the way it stops. -/
def handleClient (fs : FileSystem) (root request_string : List Char) : Run :=
  if !validGET request_string then Run.returned sendBad
  else
    let root := target root request_string
    match targetMissing fs root with
    | none => Run.threw []
    | some true => Run.returned (sendNotFound ++ sendError)
    | some false =>
      Run.after sendOK
        (match isDirectory fs root with
          | none => Run.threw []
          | some true => (sendHTML fs root).andThen (Run.returned [Event.close])
          | some false =>
            if fileExists fs root then
              ((sendHeader fs root).andThen (sendFile fs root)).andThen
                (Run.returned [Event.close])
            else Run.returned [Event.close])

/-! ## Statements used by the properties -/

/-- The pattern of `validGET` occurs somewhere in the buffer: `GET`, one
whitespace character, a possibly empty run of word characters, hyphens, dots
and slashes, one whitespace character, `HTTP/`, a digit, a dot, a digit. -/
def RequestOccurs (buf : List Char) : Prop :=
  ∃ (pre : List Char) (ws1 : Char) (path : List Char) (ws2 d1 d2 : Char) (suf : List Char),
    isSpace ws1 = true ∧ (∀ c ∈ path, isPathChar c = true) ∧ isSpace ws2 = true ∧
    isDigit d1 = true ∧ isDigit d2 = true ∧
    buf = pre ++ ("GET".toList ++ ws1 :: path ++ ws2 :: "HTTP/".toList ++ [d1, '.', d2]) ++ suf

/-- The lines of a text: the pieces between line feeds. -/
def textLines : List Char → List (List Char)
  | [] => [[]]
  | c :: cs =>
    if c = '\n' then [] :: textLines cs
    else
      match textLines cs with
      | [] => [[c]]
      | l :: ls => (c :: l) :: ls

/-- The grammar `GET <path> HTTP/<digit>.<digit>` as the specification writes
it, with single spaces between the three parts. -/
def specRequestLine : Regex :=
  Regex.seq (Regex.lit "GET ".toList)
    (Regex.seq (Regex.star (Regex.cls isPathChar))
      (Regex.seq (Regex.lit " HTTP/".toList)
        (Regex.seq (Regex.cls isDigit)
          (Regex.seq (Regex.lit ".".toList) (Regex.cls isDigit)))))

/-- The specification's condition "the buffer, read as text, contains a line
matching the grammar", read generously: some line has a part that matches. -/
def specHasRequestLine (buf : List Char) : Bool :=
  (textLines buf).any fun l =>
    match regex_search specRequestLine l with
    | some _ => true
    | none => false

/-- The maximal runs of non-whitespace characters of a text, `cur` being the
run under way. -/
def specTokensFrom (cur : List Char) : List Char → List (List Char)
  | [] => if cur = [] then [] else [cur]
  | c :: cs =>
    if isSpace c then
      if cur = [] then specTokensFrom [] cs else cur :: specTokensFrom [] cs
    else specTokensFrom (cur ++ [c]) cs

/-- The specification's `<path>`: the second whitespace-delimited token of the
first line of the request, if there is one. -/
def specPath (buf : List Char) : Option (List Char) :=
  match textLines buf with
  | [] => none
  | l :: _ =>
    match specTokensFrom [] l with
    | _ :: p :: _ => some p
    | _ => none

/-- A filesystem in which no path names anything. -/
def noFiles : FileSystem :=
  { ifstream := fun _ => none
    is_directory := fun _ => some false
    is_regular_file := fun _ => some false
    directory_iterator := fun _ => none
    file_size := fun _ => none }

/-- A small tree under `www`: the file `README` (`hi`), the directory `assets`
holding `a.txt` and `index.html`, and the directory `d` holding `a.txt` and the
directory `sub`. Directories answer with and without a trailing slash. -/
def sampleFS : FileSystem :=
  { ifstream := fun p =>
      if p = "www/README".toList then some "hi".toList
      else if p = "www/assets/a.txt".toList then some "A".toList
      else if p = "www/assets/index.html".toList then some "<p>".toList
      else if p = "www/d/a.txt".toList then some "A".toList
      else none
    is_directory := fun p =>
      some (p = "www".toList || p = "www/".toList || p = "www/assets".toList
        || p = "www/assets/".toList || p = "www/d".toList || p = "www/d/".toList
        || p = "www/d/sub".toList || p = "www/d/sub/".toList)
    is_regular_file := fun p =>
      some (p = "www/README".toList || p = "www/assets/a.txt".toList
        || p = "www/assets/index.html".toList || p = "www/d/a.txt".toList)
    directory_iterator := fun p =>
      if p = "www/assets".toList || p = "www/assets/".toList then
        some (["a.txt".toList, "index.html".toList], true)
      else if p = "www/d".toList || p = "www/d/".toList then
        some (["a.txt".toList, "sub".toList], true)
      else none
    file_size := fun p =>
      if p = "www/README".toList then some 2
      else if p = "www/assets/index.html".toList then some 3
      else if p = "www/assets/a.txt".toList || p = "www/d/a.txt".toList then some 1
      else none }

/-- A filesystem without files in which a status query on a path of 256 bytes
or more throws (`File name too long`). -/
def nameTooLongFS : FileSystem :=
  { noFiles with
    is_directory := fun p => if 256 ≤ p.length then none else some false
    is_regular_file := fun p => if 256 ≤ p.length then none else some false }

/-! ## The retry loop of `sendData`

`sendData` above records a call as one action. Here the loop itself is
described, against a socket whose `send` may accept only part of the bytes it
is offered or fail.  The parameter `send k data` is the value stored in
`int num_bytes_sent` by the `k`-th call of `send` (counting from 0) when it is
offered `data`, the `data_length` bytes at `data`; a single `send` transfers
fewer than 2^31 bytes, so that value is the value `send` returned. -/

/-- The socket behaviours of the specification: a call that is offered at
least one byte fails with -1 or accepts between 1 and all of the bytes. -/
def SendContract (send : Nat → List Char → Int) : Prop :=
  ∀ (k : Nat) (data : List Char), data ≠ [] →
    send k data = -1 ∨ (1 ≤ send k data ∧ send k data ≤ (data.length : Int))

/-- A socket that accepts at most two bytes per call. -/
def twoBytesAtATime : Nat → List Char → Int :=
  fun _ data => if data.length ≤ 2 then (data.length : Int) else 2

/-- A socket that accepts two bytes per call and fails at its third call. -/
def failsAtThirdCall : Nat → List Char → Int :=
  fun k data => if k = 2 then -1 else if data.length ≤ 2 then (data.length : Int) else 2

end ToreroServe

namespace ToreroServe

/-! ## Lemmas on the buffer -/

theorem putItem_returned {b b' : BoundedBuffer} {x : Int} {u : Unit}
    (h : b.putItem x = (b', Status.returned u)) :
    b.count ≠ b.capacity ∧ b'.count = b.count + 1 ∧ b'.buffer = b.buffer ++ [x] ∧
      b'.capacity = b.capacity := by
  unfold BoundedBuffer.putItem at h
  by_cases hc : b.count = b.capacity
  · simp [hc] at h
  · simp only [hc, if_false] at h
    have h1 := (Prod.mk.inj h).1
    subst h1
    refine ⟨hc, ?_, ?_, ?_⟩ <;> split <;> rfl

theorem getItem_returned {b b' : BoundedBuffer} {item : Int}
    (h : b.getItem = (b', Status.returned item)) :
    b.count ≠ 0 ∧ b'.count = b.count - 1 ∧ b.buffer = item :: b'.buffer ∧
      b'.capacity = b.capacity := by
  unfold BoundedBuffer.getItem at h
  by_cases hc : b.count = 0
  · simp [hc] at h
  · simp only [hc, if_false] at h
    cases hb : b.buffer with
    | nil => simp [hb] at h
    | cons y rest =>
      simp only [hb] at h
      have h1 := (Prod.mk.inj h).1
      have h2 := (Prod.mk.inj h).2
      injection h2 with h2
      subst h1; subst h2
      refine ⟨hc, ?_, ?_, ?_⟩ <;> split <;> rfl

theorem step_put {b b' : BoundedBuffer} {x : Int} {r : Option Int}
    (h : b.step (Op.putItem x) = some (b', r)) :
    r = none ∧ b.putItem x = (b', Status.returned ()) := by
  simp only [BoundedBuffer.step] at h
  cases hp : b.putItem x with
  | mk b1 st =>
    rw [hp] at h
    cases st with
    | returned u =>
      simp only [Option.some.injEq, Prod.mk.injEq] at h
      rw [← h.1, ← h.2]
      exact ⟨rfl, rfl⟩
    | waiting => simp at h
    | undefined => simp at h

theorem step_get {b b' : BoundedBuffer} {r : Option Int}
    (h : b.step Op.getItem = some (b', r)) :
    ∃ item, r = some item ∧ b.getItem = (b', Status.returned item) := by
  simp only [BoundedBuffer.step] at h
  cases hp : b.getItem with
  | mk b1 st =>
    rw [hp] at h
    cases st with
    | returned item =>
      simp only [Option.some.injEq, Prod.mk.injEq] at h
      rw [← h.1, ← h.2]
      exact ⟨item, rfl, rfl⟩
    | waiting => simp at h
    | undefined => simp at h

theorem run_cons {b b'' : BoundedBuffer} {op : Op} {ops : List Op} {rets : List Int}
    (h : b.run (op :: ops) = some (b'', rets)) :
    ∃ b' r rs, b.step op = some (b', r) ∧ b'.run ops = some (b'', rs) ∧
      rets = r.toList ++ rs := by
  simp only [BoundedBuffer.run] at h
  cases hs : b.step op with
  | none => simp [hs] at h
  | some p =>
    obtain ⟨b', r⟩ := p
    simp only [hs] at h
    cases hr : b'.run ops with
    | none => simp [hr] at h
    | some q =>
      obtain ⟨b2, rs⟩ := q
      simp only [hr, Option.some.injEq, Prod.mk.injEq] at h
      exact ⟨b', r, rs, rfl, by rw [← h.1, hr], h.2.symm⟩

theorem step_inv {b b' : BoundedBuffer} {op : Op} {r : Option Int}
    (hinv : b.Inv) (h : b.step op = some (b', r)) : b'.Inv := by
  obtain ⟨h0, h1, h2⟩ := hinv
  cases op with
  | putItem x =>
    obtain ⟨_, hp⟩ := step_put h
    obtain ⟨hc, hcnt, hbuf, hcap⟩ := putItem_returned hp
    refine ⟨?_, ?_, ?_⟩
    · omega
    · rw [hcap]; omega
    · rw [hcnt, hbuf, h2]; simp
  | getItem =>
    obtain ⟨item, _, hg⟩ := step_get h
    obtain ⟨hc, hcnt, hbuf, hcap⟩ := getItem_returned hg
    refine ⟨?_, ?_, ?_⟩
    · omega
    · rw [hcap]; omega
    · rw [hcnt, h2, hbuf]; simp

theorem run_inv {ops : List Op} : ∀ {b b' : BoundedBuffer} {rets : List Int},
    b.Inv → b.run ops = some (b', rets) → b'.Inv := by
  induction ops with
  | nil =>
    intro b b' rets hinv h
    simp only [BoundedBuffer.run, Option.some.injEq, Prod.mk.injEq] at h
    rw [← h.1]; exact hinv
  | cons op ops ih =>
    intro b b' rets hinv h
    obtain ⟨b1, r, rs, hs, hr, _⟩ := run_cons h
    exact ih (step_inv hinv hs) hr

theorem run_fifo {ops : List Op} : ∀ {b b' : BoundedBuffer} {rets : List Int},
    b.run ops = some (b', rets) → b.buffer ++ putArgs ops = rets ++ b'.buffer := by
  induction ops with
  | nil =>
    intro b b' rets h
    simp only [BoundedBuffer.run, Option.some.injEq, Prod.mk.injEq] at h
    rw [← h.1, ← h.2]; simp [putArgs]
  | cons op ops ih =>
    intro b b' rets h
    obtain ⟨b1, r, rs, hs, hr, hrets⟩ := run_cons h
    have hrec := ih hr
    cases op with
    | putItem x =>
      obtain ⟨hr0, hp⟩ := step_put hs
      obtain ⟨_, _, hbuf, _⟩ := putItem_returned hp
      subst hr0
      rw [hbuf] at hrec
      simp only [putArgs, hrets, Option.toList, List.nil_append]
      rw [← hrec]; simp
    | getItem =>
      obtain ⟨item, hr0, hg⟩ := step_get hs
      obtain ⟨_, _, hbuf, _⟩ := getItem_returned hg
      subst hr0
      simp only [putArgs, hrets, Option.toList, hbuf]
      simp [hrec]

end ToreroServe

namespace ToreroServe

/-! ## Properties of the bounded buffer -/

theorem putItem_full {b : BoundedBuffer} (x : Int) (h : b.count = b.capacity) :
    b.putItem x = (b, Status.waiting) := by
  simp [BoundedBuffer.putItem, h]

theorem getItem_empty {b : BoundedBuffer} (h : b.count = 0) :
    b.getItem = (b, Status.waiting) := by
  simp [BoundedBuffer.getItem, h]

theorem run_put_first_none {b : BoundedBuffer} (x : Int) (ops : List Op)
    (h : b.count = b.capacity) : b.run (Op.putItem x :: ops) = none := by
  simp [BoundedBuffer.run, BoundedBuffer.step, putItem_full x h]

theorem run_get_first_none {b : BoundedBuffer} (ops : List Op)
    (h : b.count = 0) : b.run (Op.getItem :: ops) = none := by
  simp [BoundedBuffer.run, BoundedBuffer.step, getItem_empty h]

/-- C1: for every capacity of at least 1 and every sequence of completed
putItem/getItem calls on a newly constructed buffer, the handles passed to
putItem, in call order, are the values returned by getItem, in return order,
followed by the handles still in the buffer from front to back. -/
theorem C1_fifo_no_loss_no_duplication (capacity : Int) (_hcap : 1 ≤ capacity)
    (ops : List Op) (b : BoundedBuffer) (rets : List Int)
    (h : (BoundedBuffer.new capacity).run ops = some (b, rets)) :
    putArgs ops = rets ++ b.buffer := by
  have := run_fifo h
  simpa [BoundedBuffer.new] using this

theorem C1_fifo_no_loss_no_duplication_witness :
    (BoundedBuffer.new 2).run [Op.putItem 5, Op.putItem 7, Op.getItem, Op.putItem 9, Op.getItem]
        = some ({ capacity := 2, count := 1, head := 1, tail := 0, buffer := [9] }, [5, 7]) ∧
      putArgs [Op.putItem 5, Op.putItem 7, Op.getItem, Op.putItem 9, Op.getItem]
        = [5, 7] ++ [9] :=
  ⟨by decide,
   C1_fifo_no_loss_no_duplication 2 (by decide)
     [Op.putItem 5, Op.putItem 7, Op.getItem, Op.putItem 9, Op.getItem]
     { capacity := 2, count := 1, head := 1, tail := 0, buffer := [9] } [5, 7] (by decide)⟩

/-- C2: for every capacity of at least 1, the predicate "0 ≤ count ≤ capacity
and count is the number of handles held" holds for a newly constructed buffer,
is preserved by every completed putItem and every completed getItem, and so
holds in every state reached by a sequence of completed calls. -/
theorem C2_count_invariant (capacity : Int) (hcap : 1 ≤ capacity) :
    (BoundedBuffer.new capacity).Inv ∧
    (∀ (b b' : BoundedBuffer) (x : Int) (u : Unit),
      b.Inv → b.putItem x = (b', Status.returned u) → b'.Inv) ∧
    (∀ (b b' : BoundedBuffer) (item : Int),
      b.Inv → b.getItem = (b', Status.returned item) → b'.Inv) ∧
    (∀ (ops : List Op) (b : BoundedBuffer) (rets : List Int),
      (BoundedBuffer.new capacity).run ops = some (b, rets) → b.Inv) := by
  have hnew : (BoundedBuffer.new capacity).Inv := by
    refine ⟨?_, ?_, ?_⟩ <;> simp [BoundedBuffer.new]
    omega
  refine ⟨hnew, ?_, ?_, ?_⟩
  · intro b b' x u hinv h
    have hs : b.step (Op.putItem x) = some (b', none) := by
      simp [BoundedBuffer.step, h]
    exact step_inv hinv hs
  · intro b b' item hinv h
    have hs : b.step Op.getItem = some (b', some item) := by
      simp [BoundedBuffer.step, h]
    exact step_inv hinv hs
  · intro ops b rets h
    exact run_inv hnew h

theorem C2_count_invariant_witness :
    (BoundedBuffer.new 2).Inv ∧
    (({ capacity := 2, count := 1, head := 1, tail := 0, buffer := [4] } : BoundedBuffer).putItem 6
        = ({ capacity := 2, count := 2, head := 0, tail := 0, buffer := [4, 6] }, Status.returned ()) ∧
      ({ capacity := 2, count := 2, head := 0, tail := 0, buffer := [4, 6] } : BoundedBuffer).Inv) ∧
    (({ capacity := 2, count := 2, head := 0, tail := 0, buffer := [4, 6] } : BoundedBuffer).getItem
        = ({ capacity := 2, count := 1, head := 0, tail := 1, buffer := [6] }, Status.returned 4) ∧
      ({ capacity := 2, count := 1, head := 0, tail := 1, buffer := [6] } : BoundedBuffer).Inv) :=
  ⟨(C2_count_invariant 2 (by decide)).1,
   ⟨by decide, (C2_count_invariant 2 (by decide)).2.1
      { capacity := 2, count := 1, head := 1, tail := 0, buffer := [4] }
      { capacity := 2, count := 2, head := 0, tail := 0, buffer := [4, 6] } 6 ()
      (by decide) (by decide)⟩,
   ⟨by decide, (C2_count_invariant 2 (by decide)).2.2.1
      { capacity := 2, count := 2, head := 0, tail := 0, buffer := [4, 6] }
      { capacity := 2, count := 1, head := 0, tail := 1, buffer := [6] } 4
      (by decide) (by decide)⟩⟩

/-- C3: a putItem does not complete from a state with count == capacity and a
getItem does not complete from a state with count == 0, and the waiting call
leaves every field as it was; after a full state, a putItem completes only
once some getItem has completed, and after an empty state a getItem completes
only once some putItem has completed. -/
theorem C3_backpressure :
    (∀ (b : BoundedBuffer) (x : Int), b.count = b.capacity →
      b.putItem x = (b, Status.waiting)) ∧
    (∀ b : BoundedBuffer, b.count = 0 → b.getItem = (b, Status.waiting)) ∧
    (∀ (b : BoundedBuffer) (ops : List Op) (x : Int), b.count = b.capacity →
      (b.run (ops ++ [Op.putItem x])).isSome = true → Op.getItem ∈ ops) ∧
    (∀ (b : BoundedBuffer) (ops : List Op), b.count = 0 →
      (b.run (ops ++ [Op.getItem])).isSome = true → ∃ x, Op.putItem x ∈ ops) := by
  refine ⟨fun b x h => putItem_full x h, fun b h => getItem_empty h, ?_, ?_⟩
  · intro b ops x hfull hrun
    cases ops with
    | nil => simp [run_put_first_none x [] hfull] at hrun
    | cons op rest =>
      cases op with
      | putItem y =>
        rw [List.cons_append, run_put_first_none y _ hfull] at hrun
        simp at hrun
      | getItem => simp
  · intro b ops hempty hrun
    cases ops with
    | nil => simp [run_get_first_none [] hempty] at hrun
    | cons op rest =>
      cases op with
      | putItem y => exact ⟨y, by simp⟩
      | getItem =>
        rw [List.cons_append, run_get_first_none _ hempty] at hrun
        simp at hrun

theorem C3_backpressure_witness :
    (({ capacity := 1, count := 1, head := 0, tail := 0, buffer := [3] } : BoundedBuffer).putItem 8
        = ({ capacity := 1, count := 1, head := 0, tail := 0, buffer := [3] }, Status.waiting)) ∧
    ((BoundedBuffer.new 1).getItem = (BoundedBuffer.new 1, Status.waiting)) ∧
    (Op.getItem ∈ [Op.getItem]) ∧
    (∃ x, Op.putItem x ∈ [Op.putItem 8]) :=
  ⟨C3_backpressure.1 _ 8 (by decide),
   C3_backpressure.2.1 _ (by decide),
   C3_backpressure.2.2.1
     { capacity := 1, count := 1, head := 0, tail := 0, buffer := [3] } [Op.getItem] 8
     (by decide) (by decide),
   C3_backpressure.2.2.2 (BoundedBuffer.new 1) [Op.putItem 8] (by decide) (by decide)⟩

end ToreroServe

namespace ToreroServe

/-! ## The derivative matcher computes the denoted language -/

theorem Regex.Matches.nullable_of_nil {r : Regex} {x : List Char} (h : Regex.Matches r x) :
    x = [] → r.nullable = true := by
  induction h with
  | eps => intro _; rfl
  | cls p c hp => intro h; cases h
  | seq a b s t _ _ ih1 ih2 =>
    intro h
    rw [List.append_eq_nil] at h
    simp [Regex.nullable, ih1 h.1, ih2 h.2]
  | altL a b s _ ih => intro h; simp [Regex.nullable, ih h]
  | altR a b s _ ih => intro h; simp [Regex.nullable, ih h]
  | starNil a => intro _; rfl
  | starCons a s t _ _ _ _ => intro _; rfl

theorem Regex.matches_nil_of_nullable : ∀ {r : Regex}, r.nullable = true → Regex.Matches r []
  | Regex.nothing, h => by simp [Regex.nullable] at h
  | Regex.eps, _ => Regex.Matches.eps
  | Regex.cls _, h => by simp [Regex.nullable] at h
  | Regex.seq a b, h => by
    simp only [Regex.nullable, Bool.and_eq_true] at h
    exact Regex.Matches.seq a b [] [] (Regex.matches_nil_of_nullable h.1)
      (Regex.matches_nil_of_nullable h.2)
  | Regex.alt a b, h => by
    simp only [Regex.nullable, Bool.or_eq_true] at h
    cases h with
    | inl h => exact Regex.Matches.altL a b [] (Regex.matches_nil_of_nullable h)
    | inr h => exact Regex.Matches.altR a b [] (Regex.matches_nil_of_nullable h)
  | Regex.star a, _ => Regex.Matches.starNil a

theorem Regex.Matches.deriv_of_cons {r : Regex} {x : List Char} (h : Regex.Matches r x) :
    ∀ (c : Char) (s : List Char), x = c :: s → Regex.Matches (r.deriv c) s := by
  induction h with
  | eps => intro c s h; cases h
  | cls p d hp =>
    intro c s h
    injection h with h1 h2
    subst h1; subst h2
    simp only [Regex.deriv, hp, if_true]
    exact Regex.Matches.eps
  | seq a b s1 s2 h1 h2 ih1 ih2 =>
    intro c s h
    cases s1 with
    | nil =>
      have hn := h1.nullable_of_nil rfl
      simp only [Regex.deriv, hn, if_true]
      exact Regex.Matches.altR _ _ _ (ih2 c s (by simpa using h))
    | cons d s1' =>
      rw [List.cons_append] at h
      injection h with hd hs
      subst hd; subst hs
      have hseq := Regex.Matches.seq _ _ _ _ (ih1 d s1' rfl) h2
      by_cases hn : a.nullable = true
      · simp only [Regex.deriv, hn, if_true]
        exact Regex.Matches.altL _ _ _ hseq
      · simp only [Regex.deriv, hn]
        exact hseq
  | altL a b s _ ih =>
    intro c t h
    exact Regex.Matches.altL _ _ _ (ih c t h)
  | altR a b s _ ih =>
    intro c t h
    exact Regex.Matches.altR _ _ _ (ih c t h)
  | starNil a => intro c s h; cases h
  | starCons a s1 s2 h1 h2 ih1 ih2 =>
    intro c s h
    cases s1 with
    | nil => exact ih2 c s (by simpa using h)
    | cons d s1' =>
      rw [List.cons_append] at h
      injection h with hd hs
      subst hd; subst hs
      exact Regex.Matches.seq _ _ _ _ (ih1 d s1' rfl) h2

theorem Regex.matches_cons_of_deriv : ∀ {r : Regex} {c : Char} {s : List Char},
    Regex.Matches (r.deriv c) s → Regex.Matches r (c :: s)
  | Regex.nothing, c, s, h => by simp only [Regex.deriv] at h; cases h
  | Regex.eps, c, s, h => by simp only [Regex.deriv] at h; cases h
  | Regex.cls p, c, s, h => by
    simp only [Regex.deriv] at h
    by_cases hp : p c = true
    · simp only [hp, if_true] at h
      cases h
      exact Regex.Matches.cls p c hp
    · simp only [hp] at h
      cases h
  | Regex.seq a b, c, s, h => by
    simp only [Regex.deriv] at h
    by_cases hn : a.nullable = true
    · simp only [hn, if_true] at h
      cases h with
      | altL _ _ _ h =>
        cases h with
        | seq _ _ s1 s2 h1 h2 =>
          exact Regex.Matches.seq a b (c :: s1) s2 (Regex.matches_cons_of_deriv h1) h2
      | altR _ _ _ h =>
        exact Regex.Matches.seq a b [] (c :: s) (Regex.matches_nil_of_nullable hn)
          (Regex.matches_cons_of_deriv h)
    · simp only [hn] at h
      cases h with
      | seq _ _ s1 s2 h1 h2 =>
        exact Regex.Matches.seq a b (c :: s1) s2 (Regex.matches_cons_of_deriv h1) h2
  | Regex.alt a b, c, s, h => by
    simp only [Regex.deriv] at h
    cases h with
    | altL _ _ _ h => exact Regex.Matches.altL _ _ _ (Regex.matches_cons_of_deriv h)
    | altR _ _ _ h => exact Regex.Matches.altR _ _ _ (Regex.matches_cons_of_deriv h)
  | Regex.star a, c, s, h => by
    simp only [Regex.deriv] at h
    cases h with
    | seq _ _ s1 s2 h1 h2 =>
      exact Regex.Matches.starCons a (c :: s1) s2 (Regex.matches_cons_of_deriv h1) h2

theorem Regex.longestMatch_eq_none {s : List Char} : ∀ {r : Regex},
    r.longestMatch s = none ↔ ∀ m t, s = m ++ t → ¬ Regex.Matches r m := by
  induction s with
  | nil =>
    intro r
    simp only [Regex.longestMatch]
    constructor
    · intro h m t hs hm
      have hm0 : m = [] := (List.append_eq_nil.mp hs.symm).1
      have := hm.nullable_of_nil hm0
      simp [this] at h
    · intro h
      by_cases hn : r.nullable = true
      · exact absurd (Regex.matches_nil_of_nullable hn) (h [] [] rfl)
      · simp [hn]
  | cons c cs ih =>
    intro r
    simp only [Regex.longestMatch]
    constructor
    · intro h m t hs hm
      cases hl : Regex.longestMatch (r.deriv c) cs with
      | some m' => simp [hl] at h
      | none =>
        simp only [hl] at h
        cases m with
        | nil =>
          have := hm.nullable_of_nil rfl
          simp [this] at h
        | cons d m' =>
          rw [List.cons_append] at hs
          injection hs with hd hs
          subst hd
          exact (ih.mp hl) m' t hs (hm.deriv_of_cons c m' rfl)
    · intro h
      have hl : Regex.longestMatch (r.deriv c) cs = none := by
        rw [ih]
        intro m t hs hm
        exact h (c :: m) t (by rw [hs]; rfl) (Regex.matches_cons_of_deriv hm)
      simp only [hl]
      by_cases hn : r.nullable = true
      · exact absurd (Regex.matches_nil_of_nullable hn) (h [] (c :: cs) rfl)
      · simp [hn]

theorem Regex.longestMatch_some {s : List Char} : ∀ {r : Regex} {m : List Char},
    r.longestMatch s = some m →
      (∃ t, s = m ++ t) ∧ Regex.Matches r m ∧
        ∀ m' t', s = m' ++ t' → Regex.Matches r m' → m'.length ≤ m.length := by
  induction s with
  | nil =>
    intro r m h
    simp only [Regex.longestMatch] at h
    by_cases hn : r.nullable = true
    · simp only [hn, if_true, Option.some.injEq] at h
      subst h
      refine ⟨⟨[], rfl⟩, Regex.matches_nil_of_nullable hn, ?_⟩
      intro m' t' hs _
      have : m' = [] := (List.append_eq_nil.mp hs.symm).1
      simp [this]
    · simp [hn] at h
  | cons c cs ih =>
    intro r m h
    simp only [Regex.longestMatch] at h
    cases hl : Regex.longestMatch (r.deriv c) cs with
    | some m1 =>
      simp only [hl, Option.some.injEq] at h
      subst h
      obtain ⟨⟨t, ht⟩, hm, hmax⟩ := ih hl
      refine ⟨⟨t, by rw [ht]; rfl⟩, Regex.matches_cons_of_deriv hm, ?_⟩
      intro m' t' hs hm'
      cases m' with
      | nil => simp
      | cons d m2 =>
        rw [List.cons_append] at hs
        injection hs with hd hs
        subst hd
        have := hmax m2 t' hs (hm'.deriv_of_cons c m2 rfl)
        simp only [List.length_cons]
        omega
    | none =>
      simp only [hl] at h
      by_cases hn : r.nullable = true
      · simp only [hn, if_true, Option.some.injEq] at h
        subst h
        refine ⟨⟨c :: cs, rfl⟩, Regex.matches_nil_of_nullable hn, ?_⟩
        intro m' t' hs hm'
        cases m' with
        | nil => simp
        | cons d m2 =>
          rw [List.cons_append] at hs
          injection hs with hd hs
          subst hd
          exact absurd (hm'.deriv_of_cons c m2 rfl)
            ((Regex.longestMatch_eq_none.mp hl) m2 t' hs)
      · simp [hn] at h

theorem regex_search_eq_none {r : Regex} {s : List Char} :
    regex_search r s = none ↔ ∀ pre m suf, s = pre ++ m ++ suf → ¬ Regex.Matches r m := by
  induction s with
  | nil =>
    simp only [regex_search]
    rw [Regex.longestMatch_eq_none]
    constructor
    · intro h pre m suf hs hm
      have h1 := List.append_eq_nil.mp hs.symm
      have h2 := List.append_eq_nil.mp h1.1
      exact h m [] (by simp [h2.2]) hm
    · intro h m t hs hm
      exact h [] m t (by simpa using hs) hm
  | cons c cs ih =>
    simp only [regex_search]
    constructor
    · intro h pre m suf hs hm
      cases hl : r.longestMatch (c :: cs) with
      | some m' => simp [hl] at h
      | none =>
        simp only [hl] at h
        cases pre with
        | nil =>
          exact (Regex.longestMatch_eq_none.mp hl) m suf (by simpa using hs) hm
        | cons d pre' =>
          simp only [List.cons_append] at hs
          injection hs with hd hs
          exact (ih.mp h) pre' m suf (by simpa using hs) hm
    · intro h
      have hl : r.longestMatch (c :: cs) = none := by
        rw [Regex.longestMatch_eq_none]
        intro m t hs hm
        exact h [] m t (by simpa using hs) hm
      simp only [hl]
      rw [ih]
      intro pre m suf hs hm
      exact h (c :: pre) m suf (by simp [hs]) hm

end ToreroServe

namespace ToreroServe

/-! ## Reading a match of the two patterns -/

theorem matches_eps_iff {s : List Char} : Regex.Matches Regex.eps s ↔ s = [] := by
  constructor
  · intro h; cases h; rfl
  · intro h; subst h; exact Regex.Matches.eps

theorem matches_cls_iff {p : Char → Bool} {s : List Char} :
    Regex.Matches (Regex.cls p) s ↔ ∃ c, p c = true ∧ s = [c] := by
  constructor
  · intro h; cases h with
    | cls _ c hp => exact ⟨c, hp, rfl⟩
  · rintro ⟨c, hp, rfl⟩; exact Regex.Matches.cls p c hp

theorem matches_seq_iff {a b : Regex} {s : List Char} :
    Regex.Matches (Regex.seq a b) s ↔
      ∃ s1 s2, Regex.Matches a s1 ∧ Regex.Matches b s2 ∧ s = s1 ++ s2 := by
  constructor
  · intro h; cases h with
    | seq _ _ s1 s2 h1 h2 => exact ⟨s1, s2, h1, h2, rfl⟩
  · rintro ⟨s1, s2, h1, h2, rfl⟩; exact Regex.Matches.seq a b s1 s2 h1 h2

theorem matches_lit_iff {l s : List Char} : Regex.Matches (Regex.lit l) s ↔ s = l := by
  induction l generalizing s with
  | nil => simp only [Regex.lit]; exact matches_eps_iff
  | cons c cs ih =>
    simp only [Regex.lit, matches_seq_iff, matches_cls_iff]
    constructor
    · rintro ⟨s1, s2, ⟨d, hd, rfl⟩, h2, rfl⟩
      have hd' : d = c := by simpa using hd
      rw [ih.mp h2, hd']; rfl
    · intro h
      exact ⟨[c], cs, ⟨c, by simp, rfl⟩, ih.mpr rfl, by rw [h]; rfl⟩

theorem matches_star_cls_all {r : Regex} {x : List Char} (h : Regex.Matches r x) :
    ∀ p, r = Regex.star (Regex.cls p) → ∀ c ∈ x, p c = true := by
  induction h with
  | eps => intro p hr; cases hr
  | cls q c hq => intro p hr; cases hr
  | seq a b s t _ _ _ _ => intro p hr; cases hr
  | altL a b s _ _ => intro p hr; cases hr
  | altR a b s _ _ => intro p hr; cases hr
  | starNil a => intro p _ c hc; cases hc
  | starCons a s t h1 _ _ ih2 =>
    intro p hr c hc
    injection hr with ha
    subst ha
    rcases List.mem_append.mp hc with hc | hc
    · obtain ⟨d, hd, rfl⟩ := matches_cls_iff.mp h1
      have : c = d := by simpa using hc
      rw [this]; exact hd
    · exact ih2 p rfl c hc

theorem matches_star_cls_iff {p : Char → Bool} {s : List Char} :
    Regex.Matches (Regex.star (Regex.cls p)) s ↔ ∀ c ∈ s, p c = true := by
  constructor
  · intro h; exact matches_star_cls_all h p rfl
  · intro h
    induction s with
    | nil => exact Regex.Matches.starNil _
    | cons c cs ih =>
      exact Regex.Matches.starCons _ [c] cs
        (Regex.Matches.cls p c (h c (List.mem_cons_self c cs)))
        (ih fun d hd => h d (List.mem_cons_of_mem c hd))

theorem matches_http_request_regex {m : List Char} :
    Regex.Matches http_request_regex m ↔
      ∃ (ws1 : Char) (path : List Char) (ws2 d1 d2 : Char),
        isSpace ws1 = true ∧ (∀ c ∈ path, isPathChar c = true) ∧ isSpace ws2 = true ∧
        isDigit d1 = true ∧ isDigit d2 = true ∧
        m = "GET".toList ++ ws1 :: path ++ ws2 :: "HTTP/".toList ++ [d1, '.', d2] := by
  simp only [http_request_regex, matches_seq_iff, matches_lit_iff, matches_cls_iff,
    matches_star_cls_iff]
  constructor
  · rintro ⟨s1, s2, rfl, ⟨s3, s4, ⟨ws1, hws1, rfl⟩, ⟨path, s6, hpath, ⟨s7, s8, ⟨ws2, hws2, rfl⟩,
      ⟨s9, s10, rfl, ⟨s11, s12, ⟨d1, hd1, rfl⟩, ⟨s13, s14, rfl, ⟨d2, hd2, rfl⟩, rfl⟩, rfl⟩,
      rfl⟩, rfl⟩, rfl⟩, rfl⟩, rfl⟩
    exact ⟨ws1, path, ws2, d1, d2, hws1, hpath, hws2, hd1, hd2, by simp⟩
  · rintro ⟨ws1, path, ws2, d1, d2, hws1, hpath, hws2, hd1, hd2, rfl⟩
    exact ⟨_, _, rfl, ⟨_, _, ⟨ws1, hws1, rfl⟩, ⟨path, _, hpath, ⟨_, _, ⟨ws2, hws2, rfl⟩,
      ⟨_, _, rfl, ⟨_, _, ⟨d1, hd1, rfl⟩, ⟨_, _, rfl, ⟨d2, hd2, rfl⟩, rfl⟩, rfl⟩,
      rfl⟩, rfl⟩, rfl⟩, rfl⟩, by simp⟩

theorem validGET_iff (buf : List Char) : validGET buf = true ↔ RequestOccurs buf := by
  unfold validGET RequestOccurs
  constructor
  · intro h
    cases hs : regex_search http_request_regex buf with
    | none => simp [hs] at h
    | some m0 =>
      have hne : ¬ regex_search http_request_regex buf = none := by simp [hs]
      rw [regex_search_eq_none] at hne
      push_neg at hne
      obtain ⟨pre, m, suf, hbuf, hm⟩ := hne
      obtain ⟨ws1, path, ws2, d1, d2, h1, h2, h3, h4, h5, rfl⟩ :=
        matches_http_request_regex.mp hm
      exact ⟨pre, ws1, path, ws2, d1, d2, suf, h1, h2, h3, h4, h5, hbuf⟩
  · rintro ⟨pre, ws1, path, ws2, d1, d2, suf, h1, h2, h3, h4, h5, hbuf⟩
    cases hs : regex_search http_request_regex buf with
    | some m0 => rfl
    | none =>
      exfalso
      exact (regex_search_eq_none.mp hs) pre _ suf hbuf
        (matches_http_request_regex.mpr ⟨ws1, path, ws2, d1, d2, h1, h2, h3, h4, h5, rfl⟩)

end ToreroServe

namespace ToreroServe

/-! ## Lemmas on the handler -/

theorem sentBytes_append (a b : List Event) :
    sentBytes (a ++ b) = sentBytes a ++ sentBytes b := by
  induction a with
  | nil => rfl
  | cons e es ih =>
    cases e with
    | send d => simp [sentBytes, ih]
    | close => simp [sentBytes, ih]

theorem sendFileLoop_short {rest : List Char} (h : rest.length < 4096) :
    sendFileLoop rest = sendData rest := by
  rw [sendFileLoop]
  simp [Nat.not_le.mpr h]

theorem Run.trace_after (t : List Event) (r : Run) : (Run.after t r).trace = t ++ r.trace := by
  cases r <;> rfl

theorem Run.trace_andThen_prefix (r next : Run) :
    ∃ u, (r.andThen next).trace = r.trace ++ u := by
  cases r with
  | returned t => exact ⟨next.trace, by simp only [Run.andThen, Run.trace_after]; rfl⟩
  | threw t => exact ⟨[], by simp [Run.andThen, Run.trace]⟩
  | hangs t => exact ⟨[], by simp [Run.andThen, Run.trace]⟩

theorem handleClient_bad {fs : FileSystem} {root req : List Char}
    (hv : validGET req = false) : handleClient fs root req = Run.returned sendBad := by
  simp [handleClient, hv]

theorem handleClient_missing {fs : FileSystem} {root req : List Char}
    (hv : validGET req = true) (hf : fileExists fs (target root req) = false)
    (hd : isDirectory fs (target root req) = some false) :
    handleClient fs root req = Run.returned (sendNotFound ++ sendError) := by
  simp [handleClient, hv, targetMissing, hf, hd]

/-- When the target does not open and `fs::is_directory` throws on it, the
handler is left by the exception before it has sent anything. -/
theorem handleClient_status_throws {fs : FileSystem} {root req : List Char}
    (hv : validGET req = true) (hf : fileExists fs (target root req) = false)
    (hd : isDirectory fs (target root req) = none) :
    handleClient fs root req = Run.threw [] := by
  simp [handleClient, hv, targetMissing, hf, hd]

theorem handleClient_file {fs : FileSystem} {root req B : List Char}
    (hv : validGET req = true) (hd : isDirectory fs (target root req) = some false)
    (hB : fs.ifstream (target root req) = some B) :
    handleClient fs root req =
      Run.after sendOK
        (((sendHeader fs (target root req)).andThen
          (Run.returned (sendFileLoop B ++ sendData "\r\n".toList))).andThen
            (Run.returned [Event.close])) := by
  have hf : fileExists fs (target root req) = true := by simp [fileExists, hB]
  simp [handleClient, hv, targetMissing, hf, hd, sendFile, hB]

/-- Whatever the filesystem does, the bytes sent for a request that `validGET`
accepts are none at all, or begin with the 404 or the 200 status line. -/
theorem handleClient_valid_sent {fs : FileSystem} {root req : List Char}
    (hv : validGET req = true) :
    sentBytes (handleClient fs root req).trace = [] ∨
    ∃ rest, sentBytes (handleClient fs root req).trace
        = "HTTP/1.0 404 NOT FOUND\r\n".toList ++ rest ∨
      sentBytes (handleClient fs root req).trace = "HTTP/1.0 200 OK\r\n".toList ++ rest := by
  unfold handleClient
  simp only [hv, Bool.not_true, Bool.false_eq_true, if_false]
  cases hm : targetMissing fs (target root req) with
  | none => left; rfl
  | some b =>
    right
    cases b with
    | true =>
      exact ⟨sentBytes sendError, Or.inl (by
        simp only [Run.trace]; rw [sentBytes_append]; rfl)⟩
    | false =>
      simp only [Run.trace_after, sentBytes_append]
      exact ⟨_, Or.inr rfl⟩

/-- The anchor lines of a listing: as long as the status queries on the
entries answer and none is named index.html, the loop adds, per entry, the
line of a regular file, the line of a directory, or nothing. -/
theorem sendHTMLLoop_listing (fs : FileSystem) (file_name : List Char) (completes : Bool)
    (entries : List (List Char)) (hno : "index.html".toList ∉ entries)
    (hans : ∀ name ∈ entries, entryAnswers fs file_name name = true) :
    ∀ ss : List Char,
      sendHTMLLoop fs file_name completes entries ss =
        sendHTMLLoop fs file_name completes []
          (ss ++ (entries.map fun name =>
            if fs.is_regular_file (file_name ++ name) = some true then
              "\t<li><a href=\"".toList ++ name ++ "\">".toList ++ name
                ++ "</a></li>\r\n".toList
            else if fs.is_directory (file_name ++ name) = some true then
              "\t<li><a href=\"".toList ++ name ++ "/\">".toList ++ name
                ++ "/</a></li>\r\n".toList
            else []).flatten) := by
  induction entries with
  | nil => intro ss; simp
  | cons name rest ih =>
    intro ss
    have hne : name ≠ "index.html".toList := fun h => hno (by simp [h])
    have hrest : "index.html".toList ∉ rest := fun h => hno (List.mem_cons_of_mem _ h)
    have hans' : ∀ n ∈ rest, entryAnswers fs file_name n = true :=
      fun n hn => hans n (List.mem_cons_of_mem _ hn)
    have hname := hans name (List.mem_cons_self _ _)
    unfold entryAnswers at hname
    conv_lhs => rw [sendHTMLLoop]
    simp only [hne, if_false, List.map_cons, List.flatten_cons]
    cases h1 : fs.is_regular_file (file_name ++ name) with
    | none => simp [h1] at hname
    | some b1 =>
      cases b1 with
      | true =>
        simp only [if_true]
        rw [ih hrest hans']; simp only [List.append_assoc]
      | false =>
        cases h2 : fs.is_directory (file_name ++ name) with
        | none => simp [h1, h2] at hname
        | some b2 =>
          cases b2 with
          | true =>
            simp only [Option.some.injEq, Bool.false_eq_true, if_false, if_true]
            rw [ih hrest hans']; simp only [List.append_assoc]
          | false =>
            simp only [Option.some.injEq, Bool.false_eq_true, if_false]
            rw [ih hrest hans']; simp only [List.nil_append]

set_option maxRecDepth 1000000 in
/-- A request for a name of 256 bytes, which `validGET` accepts: the status
query throws and the handler is left before anything is sent. -/
theorem handleClient_name_too_long :
    validGET ("GET /".toList ++ List.replicate 256 'a' ++ " HTTP/1.0".toList) = true ∧
    handleClient nameTooLongFS "www".toList
        ("GET /".toList ++ List.replicate 256 'a' ++ " HTTP/1.0".toList)
      = Run.threw [] := by
  decide

end ToreroServe

namespace ToreroServe

/-! ## Properties of the request handling -/

set_option maxRecDepth 100000 in
/-- C4, as stated, fails: the buffer `GET\n/a\nHTTP/1.0` has no line matching
the grammar `GET <path> HTTP/<digit>.<digit>`, yet `validGET` accepts it and
the handler answers with the 404 response, not with the 400 line. -/
theorem C4_counterexample :
    specHasRequestLine "GET\n/a\nHTTP/1.0".toList = false ∧
    validGET "GET\n/a\nHTTP/1.0".toList = true ∧
    sentBytes (handleClient noFiles "www".toList "GET\n/a\nHTTP/1.0".toList).trace
      ≠ "HTTP/1.0 400 BAD REQUEST\r\n".toList ∧
    handleClient noFiles "www".toList "GET\n/a\nHTTP/1.0".toList
      = Run.returned (sendNotFound ++ sendError) := by
  decide

set_option maxRecDepth 100000 in
/-- C4, amended: for every request buffer, the bytes handleClient sends are
exactly `HTTP/1.0 400 BAD REQUEST\r\n` if and only if the buffer contains no
occurrence of `GET`, one whitespace character (space, tab, line feed, vertical
tab, form feed or carriage return), a possibly empty path of word characters,
hyphens, dots and slashes, one whitespace character, `HTTP/<digit>.<digit>`;
the occurrence may start anywhere and need not lie within one line. In that
case the handler returns after that one send. In particular
`FOO /bar HTTP/1.0` gets exactly that 400 line. -/
theorem C4_bad_request_iff_no_occurrence (fs : FileSystem) (root req : List Char) :
    (sentBytes (handleClient fs root req).trace = "HTTP/1.0 400 BAD REQUEST\r\n".toList
      ↔ ¬ RequestOccurs req) ∧
    (handleClient fs root req = Run.returned [Event.send "HTTP/1.0 400 BAD REQUEST\r\n".toList]
      ↔ ¬ RequestOccurs req) ∧
    handleClient fs root "FOO /bar HTTP/1.0".toList
      = Run.returned [Event.send "HTTP/1.0 400 BAD REQUEST\r\n".toList] := by
  have hbytes : sentBytes (handleClient fs root req).trace
      = "HTTP/1.0 400 BAD REQUEST\r\n".toList → validGET req = false := by
    intro h
    cases hv : validGET req with
    | false => rfl
    | true =>
      exfalso
      rcases @handleClient_valid_sent fs root req hv with h0 | ⟨rest, hr | hr⟩
      · rw [h] at h0
        exact absurd h0 (by decide)
      · rw [h] at hr
        have := congrArg (List.take 12) hr
        rw [List.take_append_of_le_length (by decide)] at this
        exact absurd this (by decide)
      · rw [h] at hr
        have := congrArg (List.take 12) hr
        rw [List.take_append_of_le_length (by decide)] at this
        exact absurd this (by decide)
  have hnot : ¬ RequestOccurs req ↔ validGET req = false := by
    rw [← validGET_iff]
    cases validGET req <;> simp
  refine ⟨?_, ?_, ?_⟩
  · rw [hnot]
    constructor
    · exact hbytes
    · intro hv
      rw [handleClient_bad hv]
      rfl
  · rw [hnot]
    constructor
    · intro h
      apply hbytes
      rw [h]
      rfl
    · intro hv
      rw [handleClient_bad hv]
      rfl
  · rw [handleClient_bad (by decide)]
    rfl

set_option maxRecDepth 100000 in
/-- C5, at the request `GET\t/a\tHTTP/1.0` (and at `GET /a\nHTTP/1.0`):
`validGET` accepts the buffer and the second whitespace-delimited token of
its first line is `/a`, but the target the handler builds under root `www` is
`www` followed by the whole buffer (by everything after the first space). -/
theorem C5_target_when_separator_is_not_a_space :
    validGET "GET\t/a\tHTTP/1.0".toList = true ∧
    specPath "GET\t/a\tHTTP/1.0".toList = some "/a".toList ∧
    target "www".toList "GET\t/a\tHTTP/1.0".toList = "wwwGET\t/a\tHTTP/1.0".toList ∧
    validGET "GET /a\nHTTP/1.0".toList = true ∧
    specPath "GET /a\nHTTP/1.0".toList = some "/a".toList ∧
    target "www".toList "GET /a\nHTTP/1.0".toList = "www/a\nHTTP/1.0".toList := by
  decide

set_option maxRecDepth 100000 in
/-- C6, at the request `GET /README HTTP/1.0` under root `www`, where
`www/README` is a regular file holding `hi`: the handler sends the status
line, then the two bytes of the file, then `\r\n`; it sends no Content-Type
line, no Content-Length line and no empty line. -/
theorem C6_file_without_dot_gets_no_header :
    validGET "GET /README HTTP/1.0".toList = true ∧
    sampleFS.ifstream (target "www".toList "GET /README HTTP/1.0".toList) = some "hi".toList ∧
    sampleFS.is_regular_file (target "www".toList "GET /README HTTP/1.0".toList)
      = some true ∧
    handleClient sampleFS "www".toList "GET /README HTTP/1.0".toList
      = Run.returned [Event.send "HTTP/1.0 200 OK\r\n".toList, Event.send "hi".toList,
          Event.send "\r\n".toList, Event.close] ∧
    sentBytes (handleClient sampleFS "www".toList "GET /README HTTP/1.0".toList).trace
      = "HTTP/1.0 200 OK\r\nhi\r\n".toList := by
  have hv : validGET "GET /README HTTP/1.0".toList = true := by decide
  have hB : sampleFS.ifstream (target "www".toList "GET /README HTTP/1.0".toList)
      = some "hi".toList := by decide
  have hd : isDirectory sampleFS (target "www".toList "GET /README HTTP/1.0".toList)
      = some false := by decide
  have hh : sendHeader sampleFS (target "www".toList "GET /README HTTP/1.0".toList)
      = Run.returned [] := by decide
  have hc : handleClient sampleFS "www".toList "GET /README HTTP/1.0".toList
      = Run.returned [Event.send "HTTP/1.0 200 OK\r\n".toList, Event.send "hi".toList,
          Event.send "\r\n".toList, Event.close] := by
    rw [handleClient_file hv hd hB, hh, sendFileLoop_short (by decide)]
    rfl
  refine ⟨hv, hB, by decide, hc, ?_⟩
  rw [hc]
  decide

set_option maxRecDepth 100000 in
/-- C7, at three paths: for `./www/index.html` and for `www/style.min.css`
the header sendHeader emits says `text/plain` (the pattern matches at the
first dot of the path: `.` and `.min`), whatever size `fs::file_size` answers
(when it throws, nothing is emitted), and for `www/README` sendHeader emits
nothing at all. -/
theorem C7_content_type_from_first_dot (fs : FileSystem) :
    sendHeader fs "./www/index.html".toList
      = (match fs.file_size "./www/index.html".toList with
        | some size =>
          Run.returned [Event.send ("Content-Type: text/plain\r\nContent-Length: ".toList
            ++ to_string size ++ "\r\n\r\n".toList)]
        | none => Run.threw []) ∧
    sendHeader fs "www/style.min.css".toList
      = (match fs.file_size "www/style.min.css".toList with
        | some size =>
          Run.returned [Event.send ("Content-Type: text/plain\r\nContent-Length: ".toList
            ++ to_string size ++ "\r\n\r\n".toList)]
        | none => Run.threw []) ∧
    sendHeader fs "www/README".toList = Run.returned [] := by
  have h1 : regex_search rgx "./www/index.html".toList = some ".".toList := by decide
  have h2 : regex_search rgx "www/style.min.css".toList = some ".min".toList := by decide
  have h3 : regex_search rgx "www/README".toList = none := by decide
  have t1 : fileType ".".toList = "text/plain".toList := by decide
  have t2 : fileType ".min".toList = "text/plain".toList := by decide
  refine ⟨?_, ?_, ?_⟩
  · simp only [sendHeader, h1, t1, sendData]
    cases fs.file_size "./www/index.html".toList <;> simp
  · simp only [sendHeader, h2, t2, sendData]
    cases fs.file_size "www/style.min.css".toList <;> simp
  · simp only [sendHeader, h3]

set_option maxRecDepth 100000 in
/-- C8, as stated, fails: for `GET /missing.txt HTTP/1.0` with no such file
the bytes sent are not the 404 status line alone. -/
theorem C8_counterexample :
    validGET "GET /missing.txt HTTP/1.0".toList = true ∧
    fileExists noFiles (target "www".toList "GET /missing.txt HTTP/1.0".toList) = false ∧
    isDirectory noFiles (target "www".toList "GET /missing.txt HTTP/1.0".toList)
      = some false ∧
    handleClient noFiles "www".toList "GET /missing.txt HTTP/1.0".toList
      = Run.returned (sendNotFound ++ sendError) ∧
    sentBytes (handleClient noFiles "www".toList "GET /missing.txt HTTP/1.0".toList).trace
      ≠ "HTTP/1.0 404 NOT FOUND\r\n".toList := by
  decide

set_option maxRecDepth 100000 in
/-- C8, amended: for every root and every request accepted by validGET whose
target std::ifstream does not open and for which fs::is_directory answers
false (it does not throw), handleClient returns after sending the status line
`HTTP/1.0 404 NOT FOUND\r\n` followed by the response of sendError:
`Content-Type: text/html\r\n`, `Content-Length: 104\r\n`, an empty line, the
fixed 104-byte error page, and a final `\r\n`. -/
theorem C8_not_found_response (fs : FileSystem) (root req : List Char)
    (hv : validGET req = true)
    (hf : fileExists fs (target root req) = false)
    (hd : isDirectory fs (target root req) = some false) :
    handleClient fs root req = Run.returned (sendNotFound ++ sendError) ∧
    sentBytes (handleClient fs root req).trace =
      "HTTP/1.0 404 NOT FOUND\r\n".toList
        ++ "Content-Type: text/html\r\n".toList
        ++ "Content-Length: 104\r\n".toList
        ++ "\r\n".toList
        ++ ("<html>\r\n<head>\r\n<title> Page not found! </title>\r\n</head>\r\n".toList
          ++ "<body> 404 Page Not Found! </body>\r\n</html>\r\n".toList)
        ++ "\r\n".toList := by
  rw [handleClient_missing hv hf hd]
  exact ⟨rfl, by decide⟩

set_option maxRecDepth 100000 in
theorem C8_not_found_response_witness :
    handleClient noFiles "www".toList "GET /missing.txt HTTP/1.0".toList
      = Run.returned (sendNotFound ++ sendError) ∧
    sentBytes (handleClient noFiles "www".toList "GET /missing.txt HTTP/1.0".toList).trace =
      "HTTP/1.0 404 NOT FOUND\r\n".toList
        ++ "Content-Type: text/html\r\n".toList
        ++ "Content-Length: 104\r\n".toList
        ++ "\r\n".toList
        ++ ("<html>\r\n<head>\r\n<title> Page not found! </title>\r\n</head>\r\n".toList
          ++ "<body> 404 Page Not Found! </body>\r\n</html>\r\n".toList)
        ++ "\r\n".toList :=
  C8_not_found_response noFiles "www".toList "GET /missing.txt HTTP/1.0".toList
    (by decide) (by decide) (by decide)

set_option maxRecDepth 100000 in
/-- C9, at the request `GET /d HTTP/1.0` under root `www`, where `www/d` is a
directory without index.html whose entries are the regular file `a.txt` and
the directory `sub`: the list the handler sends has no item, while the same
directory requested as `/d/` gets the two items. -/
theorem C9_listing_without_trailing_slash_is_empty :
    sampleFS.is_directory (target "www".toList "GET /d HTTP/1.0".toList) = some true ∧
    sampleFS.directory_iterator (target "www".toList "GET /d HTTP/1.0".toList)
      = some (["a.txt".toList, "sub".toList], true) ∧
    sampleFS.is_regular_file (entryPath "www/d".toList "a.txt".toList) = some true ∧
    sampleFS.is_directory (entryPath "www/d".toList "sub".toList) = some true ∧
    handleClient sampleFS "www".toList "GET /d HTTP/1.0".toList
      = Run.returned [Event.send "HTTP/1.0 200 OK\r\n".toList,
          Event.send ("Content-Type: text/html\r\nContent-Length: 77\r\n\r\n".toList
            ++ "<html>\r\n<head><title></title></head>\r\n<body>\r\n<ul>\r\n".toList
            ++ "</ul>\r\n</body>\r\n</html>\r\n".toList ++ "\r\n".toList),
          Event.close] ∧
    handleClient sampleFS "www".toList "GET /d/ HTTP/1.0".toList
      = Run.returned [Event.send "HTTP/1.0 200 OK\r\n".toList,
          Event.send ("Content-Type: text/html\r\nContent-Length: 149\r\n\r\n".toList
            ++ "<html>\r\n<head><title></title></head>\r\n<body>\r\n<ul>\r\n".toList
            ++ "\t<li><a href=\"a.txt\">a.txt</a></li>\r\n".toList
            ++ "\t<li><a href=\"sub/\">sub/</a></li>\r\n".toList
            ++ "</ul>\r\n</body>\r\n</html>\r\n".toList ++ "\r\n".toList),
          Event.close] := by
  decide

end ToreroServe

namespace ToreroServe

/-! ## Lemmas on the retry loop of `sendData` -/

theorem close_not_mem_sendFileLoop_le (n : Nat) :
    ∀ rest : List Char, rest.length ≤ n → Event.close ∉ sendFileLoop rest := by
  induction n with
  | zero =>
    intro rest h
    rw [sendFileLoop_short (by omega)]
    simp [sendData]
  | succ n ih =>
    intro rest h
    rw [sendFileLoop]
    split
    · intro hmem
      rcases List.mem_append.mp hmem with hm | hm
      · simp [sendData] at hm
      · exact ih _ (by simp only [List.length_drop]; omega) hm
    · simp [sendData]

theorem close_not_mem_sendHeader (fs : FileSystem) (file_name : List Char) :
    Event.close ∉ (sendHeader fs file_name).trace := by
  unfold sendHeader
  split
  · split <;> simp [Run.trace, sendData]
  · simp [Run.trace]

theorem close_not_mem_sendFile (fs : FileSystem) (file_name : List Char) :
    Event.close ∉ (sendFile fs file_name).trace := by
  unfold sendFile
  split
  · simp [Run.trace]
  · rename_i bytes _
    simp only [Run.trace]
    intro hmem
    rcases List.mem_append.mp hmem with hm | hm
    · exact close_not_mem_sendFileLoop_le bytes.length bytes (Nat.le_refl _) hm
    · simp [sendData] at hm

theorem close_not_mem_andThen {r next : Run} (h1 : Event.close ∉ r.trace)
    (h2 : Event.close ∉ next.trace) : Event.close ∉ (r.andThen next).trace := by
  cases r with
  | returned t =>
    simp only [Run.andThen, Run.trace_after]
    intro hmem
    rcases List.mem_append.mp hmem with hm | hm
    · exact h1 hm
    · exact h2 hm
  | threw t => exact h1
  | hangs t => exact h1

theorem close_not_mem_sendHTMLLoop (fs : FileSystem) (file_name : List Char)
    (completes : Bool) :
    ∀ (entries : List (List Char)) (ss : List Char),
      Event.close ∉ (sendHTMLLoop fs file_name completes entries ss).trace := by
  intro entries
  induction entries with
  | nil =>
    intro ss
    simp only [sendHTMLLoop]
    split <;> simp [Run.trace, sendData]
  | cons name rest ih =>
    intro ss
    rw [sendHTMLLoop]
    split
    · exact close_not_mem_andThen (close_not_mem_sendHeader fs _) (close_not_mem_sendFile fs _)
    · split
      · simp [Run.trace]
      · exact ih _
      · split
        · simp [Run.trace]
        · exact ih _
        · exact ih _

theorem close_not_mem_sendHTML (fs : FileSystem) (file_name : List Char) :
    Event.close ∉ (sendHTML fs file_name).trace := by
  unfold sendHTML
  split
  · simp [Run.trace]
  · split
    · simp [Run.trace, sendData]
    · split
      · simp [Run.trace]
      · exact close_not_mem_sendHTMLLoop fs file_name _ _ _

theorem andThen_close_returned {r : Run} {t : List Event}
    (h : r.andThen (Run.returned [Event.close]) = Run.returned t) :
    t = r.trace ++ [Event.close] := by
  cases r with
  | returned u =>
    simp only [Run.andThen, Run.after, Run.returned.injEq] at h
    rw [← h]; rfl
  | threw u => simp [Run.andThen] at h
  | hangs u => simp [Run.andThen] at h

/-- On the paths that answer 200 the handler, when it returns, has closed the
socket once, as its last action. -/
theorem handleClient_served_close_last {fs : FileSystem} {root req : List Char}
    {t : List Event} (hv : validGET req = true)
    (hex : targetMissing fs (target root req) = some false)
    (ht : handleClient fs root req = Run.returned t) :
    ∃ t', t = t' ++ [Event.close] ∧ Event.close ∉ t' := by
  unfold handleClient at ht
  simp only [hv, Bool.not_true, Bool.false_eq_true, if_false, hex] at ht
  have hok : Event.close ∉ sendOK := by simp [sendOK, sendData]
  cases hd : isDirectory fs (target root req) with
  | none => simp [hd, Run.after] at ht
  | some b =>
    cases b with
    | true =>
      simp only [hd] at ht
      cases hr : (sendHTML fs (target root req)).andThen (Run.returned [Event.close]) with
      | returned u =>
        rw [hr] at ht
        simp only [Run.after, Run.returned.injEq] at ht
        have hu := andThen_close_returned hr
        refine ⟨sendOK ++ (sendHTML fs (target root req)).trace, ?_, ?_⟩
        · rw [← ht, hu, List.append_assoc]
        · intro hmem
          rcases List.mem_append.mp hmem with hm | hm
          · exact hok hm
          · exact close_not_mem_sendHTML fs _ hm
      | threw u => rw [hr] at ht; simp [Run.after] at ht
      | hangs u => rw [hr] at ht; simp [Run.after] at ht
    | false =>
      simp only [hd] at ht
      by_cases hf : fileExists fs (target root req) = true
      · simp only [hf, if_true] at ht
        cases hr : ((sendHeader fs (target root req)).andThen
            (sendFile fs (target root req))).andThen (Run.returned [Event.close]) with
        | returned u =>
          rw [hr] at ht
          simp only [Run.after, Run.returned.injEq] at ht
          have hu := andThen_close_returned hr
          refine ⟨sendOK ++ ((sendHeader fs (target root req)).andThen
            (sendFile fs (target root req))).trace, ?_, ?_⟩
          · rw [← ht, hu, List.append_assoc]
          · intro hmem
            rcases List.mem_append.mp hmem with hm | hm
            · exact hok hm
            · exact close_not_mem_andThen (close_not_mem_sendHeader fs _)
                (close_not_mem_sendFile fs _) hm
        | threw u => rw [hr] at ht; simp [Run.after] at ht
        | hangs u => rw [hr] at ht; simp [Run.after] at ht
      · have hf' : fileExists fs (target root req) = false := by simpa using hf
        simp only [hf', Bool.false_eq_true, if_false, Run.after, Run.returned.injEq] at ht
        exact ⟨sendOK, ht.symm, hok⟩

theorem twoBytesAtATime_contract : SendContract twoBytesAtATime := by
  intro k data hne
  right
  have hpos : 0 < data.length := List.length_pos.mpr hne
  unfold twoBytesAtATime
  split <;> omega

theorem failsAtThirdCall_contract : SendContract failsAtThirdCall := by
  intro k data hne
  have hpos : 0 < data.length := List.length_pos.mpr hne
  unfold failsAtThirdCall
  by_cases hk : k = 2
  · left; simp [hk]
  · right
    simp only [hk, if_false]
    split <;> omega

end ToreroServe

namespace ToreroServe

/-! ## Closing the connection, and the retry loop -/

set_option maxRecDepth 100000 in
/-- C11, at the requests `FOO /bar HTTP/1.0` (the 400 path) and
`GET /missing.txt HTTP/1.0` with no such file (the 404 path): the handler
returns after its sends without closing the client connection, while on the
directory path (`GET /d/ HTTP/1.0`) it closes it once, last. -/
theorem C11_no_close_on_400_and_404_paths :
    handleClient noFiles "www".toList "FOO /bar HTTP/1.0".toList
      = Run.returned [Event.send "HTTP/1.0 400 BAD REQUEST\r\n".toList] ∧
    List.count Event.close
      (handleClient noFiles "www".toList "FOO /bar HTTP/1.0".toList).trace = 0 ∧
    handleClient noFiles "www".toList "GET /missing.txt HTTP/1.0".toList
      = Run.returned (sendNotFound ++ sendError) ∧
    List.count Event.close
      (handleClient noFiles "www".toList "GET /missing.txt HTTP/1.0".toList).trace = 0 ∧
    (∃ t, handleClient sampleFS "www".toList "GET /d/ HTTP/1.0".toList = Run.returned t ∧
      List.count Event.close t = 1 ∧ t.getLast? = some Event.close) := by
  refine ⟨by decide, by decide, by decide, by decide, ?_⟩
  exact ⟨(handleClient sampleFS "www".toList "GET /d/ HTTP/1.0".toList).trace,
    by decide, by decide, by decide⟩

end ToreroServe
